import Mathlib

/-!
Verification of the vendor-agnostic invoice ingestion core of the
outbound-freight repository.  The Python sources are shallowly embedded:
strings are lists of characters, spreadsheet grids are lists of rows of
optional strings, DataFrames carry a column-name list plus rows of cells,
and every fallible operation returns an `Except` value.  Machine floats
are modelled as rationals; the numeric grammar accepted by the float
coercions is the sign/digits/decimal-point core of the Python parsers.
-/

set_option linter.unusedVariables false

/-- Strings are modelled as lists of characters. -/
abbrev Str := List Char

/-- Converts a Lean string literal to the character-list representation. -/
def S (s : String) : Str := s.data

/-- ASCII lowercasing of a single character, as Python str.lower performs on ASCII text. -/
def pyLowerChar (c : Char) : Char :=
  if 'A' ≤ c ∧ c ≤ 'Z' then Char.ofNat (c.toNat + 32) else c

/-- Python str.lower on a whole string (ASCII fragment). -/
def pyLower (s : Str) : Str := s.map pyLowerChar

/-- Python whitespace test: the characters stripped by str.strip and matched by the whitespace class. -/
def pyIsWs (c : Char) : Bool :=
  c = ' ' ∨ c = '\t' ∨ c = '\n' ∨ c = '\r' ∨ c = '\x0b' ∨ c = '\x0c'

/-- Python str.strip: drop whitespace from both ends. -/
def pyStrip (s : Str) : Str :=
  ((s.dropWhile pyIsWs).reverse.dropWhile pyIsWs).reverse

/-- Membership of a single character in a string. -/
def hasChar (c : Char) (s : Str) : Bool := s.any (fun x => x = c)

/-- Python substring containment test (the in operator on strings). -/
def containsSub (hay pat : Str) : Bool :=
  (List.range (hay.length + 1)).any (fun i => pat.isPrefixOf (hay.drop i))

/-- Python str.find: index of the leftmost occurrence of pat in hay, absent when missing. -/
def findSub (hay pat : Str) : Option Nat :=
  (List.range (hay.length + 1)).find? (fun i => pat.isPrefixOf (hay.drop i))

/-- Supported shipping vendors, from config.py and vendor_detection.py. -/
inductive Vendor where
  | FEDEX
  | UPS
  | USPS
  | UNKNOWN
deriving DecidableEq

/-- The string value attached to each vendor enumeration member. -/
def Vendor.value : Vendor → Str
  | .FEDEX => S "fedex"
  | .UPS => S "ups"
  | .USPS => S "usps"
  | .UNKNOWN => S "unknown"

/-- Keyword list of each vendor, from VENDOR_KEYWORDS in vendor_detection.py
(the UNKNOWN vendor owns no keywords). -/
def vendorKeywordsOf : Vendor → List Str
  | .FEDEX => [S "fdx", S "fedex"]
  | .UPS => [S "ups"]
  | .USPS => [S "usps", S "stamps"]
  | .UNKNOWN => []

/-- The VENDOR_KEYWORDS mapping of vendor_detection.py, in its iteration order. -/
def VENDOR_KEYWORDS : List (Vendor × List Str) :=
  [(Vendor.FEDEX, vendorKeywordsOf Vendor.FEDEX),
   (Vendor.UPS, vendorKeywordsOf Vendor.UPS),
   (Vendor.USPS, vendorKeywordsOf Vendor.USPS)]

/-- Embeds find_earliest_keyword_position of vendor_detection.py: the position of the
earliest occurring keyword in the text, with the -1 sentinel rendered as none. -/
def find_earliest_keyword_position (text : Str) (keywords : List Str) : Option Nat :=
  (keywords.filterMap (fun k => findSub text k)).min?

/-- Earliest keyword offset of one vendor inside a lower-cased filename. -/
def earliestKeywordOffset (filename : Str) (v : Vendor) : Option Nat :=
  find_earliest_keyword_position (pyLower filename) (vendorKeywordsOf v)

/-- The ordering key used when vendor candidates are sorted by position. -/
def posLeR (a b : Nat × Vendor) : Prop := a.1 ≤ b.1

instance : DecidableRel posLeR := fun a b => inferInstanceAs (Decidable (a.1 ≤ b.1))

instance : IsTotal (Nat × Vendor) posLeR := ⟨fun a b => Nat.le_total a.1 b.1⟩

instance : IsTrans (Nat × Vendor) posLeR := ⟨fun _ _ _ hab hbc => Nat.le_trans hab hbc⟩

/-- The candidate list built by detect_vendor: every vendor owning a keyword
occurrence, paired with its earliest keyword position. -/
def vendorCandidates (fl : Str) : List (Nat × Vendor) :=
  VENDOR_KEYWORDS.filterMap
    (fun p => (find_earliest_keyword_position fl p.2).map (fun pos => (pos, p.1)))

/-- Embeds detect_vendor of outbound_freight/vendor_detection.py: lower-case the
filename, collect each vendor's earliest keyword position, sort the candidates
by position with a stable sort (Python list.sort, modelled by insertion sort)
and return the first; empty or absent filenames give UNKNOWN. -/
def detect_vendor (filename : Option Str) : Vendor :=
  match filename with
  | none => Vendor.UNKNOWN
  | some fn =>
    if fn.isEmpty then Vendor.UNKNOWN
    else
      let vendor_positions := vendorCandidates (pyLower fn)
      if vendor_positions.isEmpty then Vendor.UNKNOWN
      else ((List.insertionSort posLeR vendor_positions).headD (0, Vendor.UNKNOWN)).2

/-- Embeds detect_vendor of src/vendors/detector.py: fixed-priority regex search
(FedEx, then UPS, then USPS). -/
def detector_detect_vendor (filename : Str) : Vendor :=
  let fl := pyLower filename
  if containsSub fl (S "fdx") || containsSub fl (S "fedex") then Vendor.FEDEX
  else if containsSub fl (S "ups") then Vendor.UPS
  else if containsSub fl (S "usps") || containsSub fl (S "stamps") then Vendor.USPS
  else Vendor.UNKNOWN

/-- A pair belongs to the candidate list exactly when that vendor's earliest
keyword offset equals that position. -/
theorem mem_vendorCandidates (fn : Str) (p : Nat) (v : Vendor) :
    (p, v) ∈ vendorCandidates (pyLower fn) ↔ earliestKeywordOffset fn v = some p := by
  cases v <;>
    simp [vendorCandidates, VENDOR_KEYWORDS, earliestKeywordOffset, List.mem_filterMap,
      Option.map_eq_some', vendorKeywordsOf, find_earliest_keyword_position]

/-- Sorting a non-empty candidate list yields a non-empty list. -/
theorem insertionSort_ne_nil (l : List (Nat × Vendor)) (hne : l ≠ []) :
    List.insertionSort posLeR l ≠ [] := by
  intro h
  apply hne
  have hlen := List.length_insertionSort posLeR l
  rw [h] at hlen
  exact List.length_eq_zero.mp hlen.symm

/-- The head of the position-sorted candidate list is a candidate of minimal position. -/
theorem detect_head_min (l : List (Nat × Vendor)) (hne : l ≠ []) (d : Nat × Vendor) :
    (List.insertionSort posLeR l).headD d ∈ l ∧
    ∀ y ∈ l, posLeR ((List.insertionSort posLeR l).headD d) y := by
  have hs := List.sorted_insertionSort posLeR l
  have hne2 := insertionSort_ne_nil l hne
  obtain ⟨x, t, hsort⟩ : ∃ x t, List.insertionSort posLeR l = x :: t := by
    cases h : List.insertionSort posLeR l with
    | nil => exact absurd h hne2
    | cons a b => exact ⟨a, b, rfl⟩
  rw [hsort] at hs
  rw [hsort]
  simp only [List.headD_cons]
  constructor
  · have hx : x ∈ List.insertionSort posLeR l := by
      rw [hsort]; exact List.mem_cons_self x t
    simpa only [List.mem_insertionSort] using hx
  · intro y hy
    have hy2 : y ∈ x :: t := by
      rw [← hsort]
      simpa only [List.mem_insertionSort] using hy
    rcases List.mem_cons.mp hy2 with h | h
    · subst h; exact Nat.le_refl _
    · exact (List.sorted_cons.mp hs).1 y h

/-- Unfolds detect_vendor on a non-empty filename with a non-empty candidate list. -/
theorem detect_vendor_eq_of_ne (fn : Str) (hfn : fn ≠ [])
    (hl : vendorCandidates (pyLower fn) ≠ []) :
    detect_vendor (some fn) =
      ((List.insertionSort posLeR (vendorCandidates (pyLower fn))).headD
        (0, Vendor.UNKNOWN)).2 := by
  simp only [detect_vendor]
  rw [if_neg, if_neg]
  · simpa using hl
  · simpa using hfn

/-- C2: for every filename matching keywords of more than one vendor, detect_vendor
returns a matching vendor whose earliest keyword offset is minimal among all vendors
with a match; in particular the UPS-first and FedEx-first combined filenames resolve
to UPS and FedEx respectively. -/
theorem C2_leftmost_keyword_wins (fn : Str)
    (h : 2 ≤ (([Vendor.FEDEX, Vendor.UPS, Vendor.USPS]).filter
        (fun v => (earliestKeywordOffset fn v).isSome)).length) :
    (∃ v p, detect_vendor (some fn) = v ∧ earliestKeywordOffset fn v = some p ∧
      ∀ w q, earliestKeywordOffset fn w = some q → p ≤ q) ∧
    detect_vendor (some (S "ups_fedex_combined.xlsx")) = Vendor.UPS ∧
    detect_vendor (some (S "fdx_ups_combined.xlsx")) = Vendor.FEDEX := by
  refine ⟨?_, by decide, by decide⟩
  have hlne : vendorCandidates (pyLower fn) ≠ [] := by
    intro hemp
    have hnone : ∀ v, earliestKeywordOffset fn v = none := by
      intro v
      cases hv : earliestKeywordOffset fn v with
      | none => rfl
      | some p =>
        have hmem := (mem_vendorCandidates fn p v).mpr hv
        rw [hemp] at hmem
        exact absurd hmem (List.not_mem_nil _)
    simp [hnone] at h
  have hfn : fn ≠ [] := by
    intro hfe
    subst hfe
    exact hlne (by decide)
  obtain ⟨hmem, hmin⟩ :=
    detect_head_min (vendorCandidates (pyLower fn)) hlne (0, Vendor.UNKNOWN)
  refine ⟨_, _, detect_vendor_eq_of_ne fn hfn hlne,
    (mem_vendorCandidates fn _ _).mp hmem, ?_⟩
  intro w q hw
  exact hmin (q, w) ((mem_vendorCandidates fn q w).mpr hw)

/-- Witness for C2 at the filename containing both a UPS and a FedEx keyword. -/
theorem C2_leftmost_keyword_wins_witness :
    (2 ≤ (([Vendor.FEDEX, Vendor.UPS, Vendor.USPS]).filter
        (fun v => (earliestKeywordOffset (S "ups_fedex_combined.xlsx") v).isSome)).length) ∧
    ((∃ v p, detect_vendor (some (S "ups_fedex_combined.xlsx")) = v ∧
        earliestKeywordOffset (S "ups_fedex_combined.xlsx") v = some p ∧
        ∀ w q, earliestKeywordOffset (S "ups_fedex_combined.xlsx") w = some q → p ≤ q) ∧
      detect_vendor (some (S "ups_fedex_combined.xlsx")) = Vendor.UPS ∧
      detect_vendor (some (S "fdx_ups_combined.xlsx")) = Vendor.FEDEX) :=
  ⟨by decide, C2_leftmost_keyword_wins (S "ups_fedex_combined.xlsx") (by decide)⟩

/-- C9: detect_vendor maps both an absent filename and the empty filename to the
UNKNOWN vendor, and being a total function it raises no exception. -/
theorem C9_empty_and_none_are_unknown :
    detect_vendor none = Vendor.UNKNOWN ∧ detect_vendor (some (S "")) = Vendor.UNKNOWN :=
  ⟨rfl, by decide⟩

/-- Fueled digit renderer; the fuel always suffices when it exceeds the number. -/
def natReprGo (fuel : Nat) (n : Nat) : List Char :=
  match fuel with
  | 0 => []
  | fuel + 1 =>
    if n < 10 then [Nat.digitChar n]
    else natReprGo fuel (n / 10) ++ [Nat.digitChar (n % 10)]

/-- Decimal rendering of a natural number (Python str or format of an int). -/
def natRepr (n : Nat) : List Char := natReprGo (n + 1) n

/-- Reads a digit string back as a natural number. -/
def digitsVal (ds : List Char) : Nat :=
  ds.foldl (fun a c => 10 * a + (c.toNat - 48)) 0

theorem digitsVal_append_digit (xs : List Char) (c : Char) :
    digitsVal (xs ++ [c]) = 10 * digitsVal xs + (c.toNat - 48) := by
  simp [digitsVal, List.foldl_append]

theorem digitChar_toNat (d : Nat) (h : d < 10) : (Nat.digitChar d).toNat = 48 + d := by
  interval_cases d <;> decide

/-- Decoding a fueled rendering recovers the number when the fuel suffices. -/
theorem digitsVal_natReprGo (fuel : Nat) : ∀ n, n < fuel → digitsVal (natReprGo fuel n) = n := by
  induction fuel with
  | zero => intro n h; omega
  | succ fuel ih =>
    intro n h
    rw [natReprGo]
    by_cases h10 : n < 10
    · simp only [h10, if_true]
      simp [digitsVal, digitChar_toNat n h10]
    · simp only [h10, if_false]
      have hdiv : n / 10 < n := Nat.div_lt_self (by omega) (by omega)
      rw [digitsVal_append_digit, ih (n / 10) (by omega),
        digitChar_toNat (n % 10) (Nat.mod_lt n (by omega))]
      omega

/-- Decoding a rendered number recovers it. -/
theorem digitsVal_natRepr (n : Nat) : digitsVal (natRepr n) = n :=
  digitsVal_natReprGo (n + 1) n (by omega)

/-- Decimal rendering is injective. -/
theorem natRepr_inj (a b : Nat) (h : natRepr a = natRepr b) : a = b := by
  have := congrArg digitsVal h
  rwa [digitsVal_natRepr, digitsVal_natRepr] at this

/-- Rendered numbers are never the empty string. -/
theorem natRepr_ne_nil (n : Nat) : natRepr n ≠ [] := by
  rw [natRepr, natReprGo]
  by_cases h10 : n < 10
  · simp [h10]
  · simp [h10]

/-- Fueled renderings consist of digit characters only. -/
theorem natReprGo_all_digits (fuel : Nat) :
    ∀ n, n < fuel → ∀ c ∈ natReprGo fuel n, c.isDigit = true := by
  induction fuel with
  | zero => intro n h; omega
  | succ fuel ih =>
    intro n h c hc
    rw [natReprGo] at hc
    by_cases h10 : n < 10
    · simp only [h10, if_true, List.mem_singleton] at hc
      subst hc
      interval_cases n <;> decide
    · simp only [h10, if_false, List.mem_append, List.mem_singleton] at hc
      have hdiv : n / 10 < n := Nat.div_lt_self (by omega) (by omega)
      rcases hc with hc | hc
      · exact ih (n / 10) (by omega) c hc
      · subst hc
        have hm : n % 10 < 10 := Nat.mod_lt n (by omega)
        interval_cases hmod : n % 10 <;> simp_all <;> decide

/-- Rendered numbers consist of digit characters only. -/
theorem natRepr_all_digits (n : Nat) : ∀ c ∈ natRepr n, c.isDigit = true :=
  natReprGo_all_digits (n + 1) n (by omega)

/-- Rendered numbers contain only digit characters, never an underscore. -/
theorem natRepr_no_underscore (n : Nat) : ∀ c ∈ natRepr n, c ≠ '_' := by
  intro c hc he
  subst he
  have := natRepr_all_digits n '_' hc
  exact absurd this (by decide)

/-- The rational value written with integer mantissa m and e digits after the
decimal point. -/
def decimalRat (m : ℤ) (e : Nat) : ℚ := (m : ℚ) / 10 ^ e

/-- Core numeric grammar shared by the Python float coercions: optional
surrounding whitespace, optional sign, integer digits, optional decimal point
with fraction digits.  Strings outside the grammar are rejected, matching
pandas to_numeric under coercion, which maps them to NaN. -/
def parseDecimal (s : Str) : Option ℚ :=
  let t := pyStrip s
  let signed : ℤ × Str :=
    match t with
    | '-' :: r => (-1, r)
    | '+' :: r => (1, r)
    | r => (1, r)
  let u := signed.2
  let ip := u.takeWhile Char.isDigit
  let rest := u.drop ip.length
  match rest with
  | [] => if ip.isEmpty then none else some (decimalRat (signed.1 * digitsVal ip) 0)
  | '.' :: fp =>
    if fp.all Char.isDigit ∧ ¬(ip.isEmpty ∧ fp.isEmpty) then
      some (decimalRat (signed.1 * (digitsVal ip * 10 ^ fp.length + digitsVal fp)) fp.length)
    else none
  | _ => none

/-- Cells of a loaded DataFrame: a text value, a numeric value, or missing (NaN). -/
inductive DCell where
  | str (s : Str)
  | num (q : ℚ)
  | null
deriving DecidableEq

/-- Pads a digit string on the left with zeros up to a width. -/
def padLeftZeros (k : Nat) (ds : Str) : Str :=
  List.replicate (k - ds.length) '0' ++ ds

/-- Trims trailing zeros of a fraction, keeping at least one digit. -/
def trimTrailingZeros (ds : Str) : Str :=
  let t := (ds.reverse.dropWhile (fun c => c = '0')).reverse
  if t.isEmpty then ['0'] else t

/-- Decimal rendering of a rational, exact for fractions terminating within ten
decimal digits (the shape str produces for the program's two-decimal amounts).
No claim in this development observes the rendering of a numeric cell. -/
def ratRepr (q : ℚ) : Str :=
  (if q < 0 then ['-'] else []) ++ natRepr (q.num.natAbs / q.den) ++
    '.' :: trimTrailingZeros (padLeftZeros 10 (natRepr (q.num.natAbs % q.den * 10 ^ 10 / q.den)))

/-- Python str applied to a cell, as pandas astype(str) does elementwise
(missing values print as the string nan). -/
def astypeStr : DCell → Str
  | .str s => s
  | .num q => ratRepr q
  | .null => S "nan"

/-- A raw-grid cell as observed by the reader: absent, or the text Python str renders. -/
abbrev Cell := Option Str

/-- A raw-grid row. -/
abbrev Row := List Cell

/-- A raw header-less grid, as read with header None. -/
abbrev Grid := List Row

/-- The trimmed string values of the non-missing cells of a row, in order
(the string_values list of row_looks_like_headers). -/
def stringValues (row : Row) : List Str :=
  row.filterMap (fun c => c.map pyStrip)

/-- Python space-join of a list of strings. -/
def joinSp : List Str → Str
  | [] => []
  | [x] => x
  | x :: y :: ys => x ++ ' ' :: joinSp (y :: ys)

/-- Vendor-specific strong header indicator phrases of row_looks_like_headers. -/
def strong_header_indicators (vendor : Option Vendor) : List Str :=
  match vendor with
  | some Vendor.FEDEX =>
    [S "tracking number", S "invoice date", S "ship date", S "service type",
     S "actual weight", S "billed weight", S "dim length", S "dim width",
     S "dim height", S "zone", S "net charge", S "reference"]
  | some Vendor.UPS =>
    [S "tracking number", S "carrier invoice date", S "pickup date",
     S "service", S "shipping cost", S "billed weight", S "reference 1",
     S "reference 2", S "recipient name", S "origin state"]
  | _ =>
    [S "tracking number", S "invoice date", S "ship date", S "service type",
     S "actual weight", S "billed weight", S "reference", S "carrier invoice date",
     S "pickup date", S "recipient name", S "shipping cost"]

/-- General single-word header indicators of row_looks_like_headers. -/
def general_indicators : List Str :=
  [S "tracking", S "invoice", S "date", S "service", S "weight", S "cost",
   S "reference", S "name", S "address", S "zip", S "state", S "country",
   S "number", S "type", S "charge", S "carrier", S "column"]

/-- Generic placeholder column patterns counted for unknown vendors. -/
def generic_column_patterns : List Str :=
  [S "column", S "field", S "attr", S "col"]

/-- Required general-indicator threshold: 3 for a known vendor, 1 for the
unknown or absent vendor. -/
def required_indicator_count (vendor : Option Vendor) : Nat :=
  match vendor with
  | some Vendor.UNKNOWN => 1
  | some _ => 3
  | none => 1

/-- General-indicator tally of a lower-cased row text, with the extra generic
column patterns counted when the vendor is unknown or absent. -/
def general_count_of (vendor : Option Vendor) (text_lower : Str) : Nat :=
  (if vendor = some Vendor.UNKNOWN ∨ vendor = none then
    generic_column_patterns.countP (fun p => containsSub text_lower p)
  else 0) +
  general_indicators.countP (fun ind => containsSub text_lower ind)

/-- Embeds row_looks_like_headers of file_reader.py: minimum breadth, mostly
non-numeric, no currency cells, then strong-indicator acceptance, then a
general-indicator threshold depending on the vendor. -/
def row_looks_like_headers (row : Row) (vendor : Option Vendor) : Bool :=
  if (stringValues row).length < 4 then false
  else if 0 < (stringValues row).length ∧
      2 * ((stringValues row).filter (fun v => (parseDecimal v).isSome)).length >
        (stringValues row).length then false
  else if hasChar '$' (joinSp (stringValues row)) ∧
      1 ≤ ((stringValues row).filter (fun v => hasChar '$' v)).length then false
  else if 2 ≤ (strong_header_indicators vendor).countP
      (fun ind => containsSub (pyLower (joinSp (stringValues row))) ind) then true
  else required_indicator_count vendor ≤
    general_count_of vendor (pyLower (joinSp (stringValues row)))

/-- Vendor-specific header search orders of detect_header_row_with_vendor. -/
def header_search_order : Vendor → List Nat
  | Vendor.FEDEX => [3, 2, 4, 1, 5, 0, 6, 7, 8, 9]
  | Vendor.UPS => [2, 3, 1, 4, 0, 5, 6, 7, 8, 9]
  | Vendor.USPS => [0, 1, 2, 3, 4, 5, 6, 7, 8, 9]
  | Vendor.UNKNOWN => [0, 1, 2, 3, 4, 5, 6, 7, 8, 9]

/-- Configuration of FileReader: the constructor stores max_header_rows. -/
structure FileReaderCfg where
  max_header_rows : Nat := 10

/-- Embeds detect_header_row_with_vendor of file_reader.py: walk the vendor's
fixed search order, skip indices beyond the grid, return the first row that
looks like a header.  The cfg parameter mirrors self; the method body never
consults its max_header_rows field. -/
def detect_header_row_with_vendor (cfg : FileReaderCfg) (raw_df : Grid) (vendor : Vendor) :
    Option Nat :=
  (header_search_order vendor).find?
    (fun row_idx => row_idx < raw_df.length ∧
      row_looks_like_headers (raw_df.getD row_idx []) (some vendor))

/-- A character occurring in a member of a string list occurs in the space-join. -/
theorem hasChar_joinSp_of_mem {c : Char} {v : Str} {l : List Str} (hv : v ∈ l)
    (hc : hasChar c v = true) : hasChar c (joinSp l) = true := by
  induction l with
  | nil => cases hv
  | cons x xs ih =>
    cases xs with
    | nil =>
      rw [List.mem_singleton] at hv
      subst hv
      simpa [joinSp] using hc
    | cons y ys =>
      rw [joinSp]
      rcases List.mem_cons.mp hv with h | h
      · subst h
        simp only [hasChar, List.any_append]
        simp [hasChar] at hc
        simp [hc]
      · have := ih h
        simp only [hasChar, List.any_append, List.any_cons]
        simp [hasChar] at this
        simp [this]

/-- C8: a row whose trimmed non-missing values include a dollar-prefixed value
is never classified as a header, for every vendor argument; the currency
rejection fires before the strong-indicator acceptance can be consulted. -/
theorem C8_currency_row_never_header (row : Row) (vendor : Option Vendor)
    (h : ∃ v t, v ∈ stringValues row ∧ v = '$' :: t) :
    row_looks_like_headers row vendor = false := by
  obtain ⟨v, t, hv, rfl⟩ := h
  rw [row_looks_like_headers]
  have h1 : hasChar '$' (joinSp (stringValues row)) = true :=
    hasChar_joinSp_of_mem hv (by simp [hasChar])
  have h2 : ('$' :: t) ∈ (stringValues row).filter (fun w => hasChar '$' w) :=
    List.mem_filter.mpr ⟨hv, by simp [hasChar]⟩
  have h3 : 1 ≤ ((stringValues row).filter (fun w => hasChar '$' w)).length := by
    have := List.length_pos.mpr (List.ne_nil_of_mem h2)
    omega
  split
  · rfl
  · split
    · rfl
    · rw [if_pos (And.intro h1 h3)]

/-- Witness for C8: a concrete four-value row holding two strong FedEx
indicator phrases and a dollar amount is rejected. -/
theorem C8_currency_row_never_header_witness :
    (∃ v t, v ∈ stringValues
        [some (S "Tracking Number"), some (S "Invoice Date"), some (S "$125.00"),
         some (S "Total")] ∧ v = '$' :: t) ∧
    row_looks_like_headers
      [some (S "Tracking Number"), some (S "Invoice Date"), some (S "$125.00"),
       some (S "Total")] (some Vendor.FEDEX) = false :=
  ⟨⟨S "$125.00", S "125.00", by decide, by decide⟩,
   C8_currency_row_never_header _ _ ⟨S "$125.00", S "125.00", by decide, by decide⟩⟩

/-- The FedEx-shaped header row of the end-to-end scenario. -/
def fedexHeaderRow : Row :=
  [some (S "Tracking Number"), some (S "Invoice Date"), some (S "Ship Date"),
   some (S "Service Type"), some (S "Net Charge"), some (S "Recipient State")]

/-- The synthetic FedEx-shaped grid of the end-to-end scenario: three preamble
rows, the header row at raw index 3, and two data rows whose Net Charge cells
hold a dollar amount and a parenthesized dollar amount. -/
def fedexScenarioGrid : Grid :=
  [[some (S "FedEx Invoice Summary"), none, none, none, none, none],
   [some (S "Account LOL509"), none, none, none, none, none],
   [none, none, none, none, none, none],
   fedexHeaderRow,
   [some (S "785123456789"), some (S "2025-08-02"), some (S "2025-07-30"),
    some (S "Ground"), some (S "$19.82"), some (S "CA")],
   [some (S "785123456790"), some (S "2025-08-02"), some (S "2025-07-30"),
    some (S "Ground"), some (S "$(5.00)"), some (S "TX")]]

/-- C3 fails as stated: with a configured bound of 2 the locator still returns
row index 3, because the hard-coded vendor search orders never consult the
configured max_header_rows field. -/
theorem C3_counterexample :
    detect_header_row_with_vendor ⟨2⟩ fedexScenarioGrid Vendor.FEDEX = some 3 ∧
    ¬(3 < (⟨2⟩ : FileReaderCfg).max_header_rows) := by
  exact ⟨by decide, by decide⟩

/-- C3 amended: for every configuration, raw grid and vendor, the locator
returns absent or a row index that is strictly below 10 and within the grid;
the configured max_header_rows bound itself is never consulted, so indices
below a configured bound smaller than 10 are not guaranteed. -/
theorem C3_amended_locator_bounded (cfg : FileReaderCfg) (raw_df : Grid) (vendor : Vendor) :
    detect_header_row_with_vendor cfg raw_df vendor = none ∨
    ∃ i, detect_header_row_with_vendor cfg raw_df vendor = some i ∧
      i < 10 ∧ i < raw_df.length := by
  cases h : detect_header_row_with_vendor cfg raw_df vendor with
  | none => exact Or.inl rfl
  | some i =>
    simp only [detect_header_row_with_vendor] at h
    refine Or.inr ⟨i, rfl, ?_, ?_⟩
    · have hmem : i ∈ header_search_order vendor := List.mem_of_find?_eq_some h
      cases vendor <;>
        simp only [header_search_order, List.mem_cons, List.not_mem_nil, or_false] at hmem <;>
        omega
    · have hp := List.find?_some h
      simp only [decide_eq_true_eq] at hp
      exact hp.1

/-- Whitespace-run collapsing of the regex substitution in clean_column_names:
each maximal whitespace run becomes a single space.  The flag records whether
the scan is inside a run. -/
def collapseWsGo (inRun : Bool) : Str → Str
  | [] => []
  | c :: rest =>
    if pyIsWs c then
      if inRun then collapseWsGo true rest
      else ' ' :: collapseWsGo true rest
    else c :: collapseWsGo false rest

/-- The whitespace-collapsing substitution applied to a whole name. -/
def collapseWs (s : Str) : Str := collapseWsGo false s

/-- Embeds the per-column cleaning of clean_column_names in file_reader.py:
missing names become Unknown_Column, other names are stripped and have interior
whitespace collapsed, and a name empty after cleaning becomes Unknown_Column. -/
def clean_column_name (col : Option Str) : Str :=
  match col with
  | none => S "Unknown_Column"
  | some c =>
    if (collapseWs (pyStrip c)).isEmpty then S "Unknown_Column"
    else collapseWs (pyStrip c)

/-- The name produced for the k-th repetition of a duplicate column name. -/
def mkSuffixed (name : Str) (k : Nat) : Str := name ++ '_' :: natRepr k

/-- Embeds the duplicate-handling loop of clean_column_names: the seen map
stores the last suffix number used for each name. -/
def dedupe_go (seen : Str → Option Nat) : List Str → List Str
  | [] => []
  | n :: rest =>
    match seen n with
    | none => n :: dedupe_go (fun x => if x = n then some 0 else seen x) rest
    | some c => mkSuffixed n (c + 1) ::
        dedupe_go (fun x => if x = n then some (c + 1) else seen x) rest

/-- Embeds clean_column_names of file_reader.py: clean every name, then make
duplicates unique with numeric suffixes in order of occurrence. -/
def clean_column_names (columns : List (Option Str)) : List Str :=
  dedupe_go (fun _ => none) (columns.map clean_column_name)

/-- The seen map as a function of the already-processed prefix. -/
def seenOf (pre : List Str) : Str → Option Nat :=
  fun n => if pre.count n = 0 then none else some (pre.count n - 1)

theorem seenOf_nil : (fun _ : Str => (none : Option Nat)) = seenOf [] := by
  funext n
  simp [seenOf]

theorem seenOf_snoc (pre : List Str) (n : Str) :
    (fun x => if x = n then some (pre.count n) else seenOf pre x) = seenOf (pre ++ [n]) := by
  funext x
  by_cases hx : x = n
  · subst hx
    simp [seenOf, List.count_append, List.count_singleton_self]
  · have hcount : [n].count x = 0 := by
      simp only [List.count_eq_zero, List.mem_singleton]
      exact hx
    simp [seenOf, hx, List.count_append, hcount]

/-- The name emitted for position i given the names counted so far. -/
def dedupeOut (pre : List Str) (c : List Str) (i : Nat) : Str :=
  if (pre ++ c.take i).count (c.getD i []) = 0 then c.getD i []
  else mkSuffixed (c.getD i []) ((pre ++ c.take i).count (c.getD i []))

/-- Closed form of the duplicate-handling loop: position i receives its cleaned
name, suffixed with the number of earlier occurrences when there are any. -/
theorem dedupe_go_eq (rest : List Str) : ∀ pre,
    dedupe_go (seenOf pre) rest = (List.range rest.length).map (dedupeOut pre rest) := by
  induction rest with
  | nil => intro pre; simp [dedupe_go]
  | cons n rs ih =>
    intro pre
    have htail : (List.range (rs.length + 1)).map (dedupeOut pre (n :: rs)) =
        dedupeOut pre (n :: rs) 0 ::
          (List.range rs.length).map (dedupeOut (pre ++ [n]) rs) := by
      rw [List.range_succ_eq_map, List.map_cons, List.map_map]
      congr 1
      apply List.map_congr_left
      intro i hi
      simp only [Function.comp_apply, dedupeOut, List.getD_cons_succ, List.take_succ_cons,
        List.append_cons pre n (rs.take i)]
    have hhead : dedupeOut pre (n :: rs) 0 =
        if pre.count n = 0 then n else mkSuffixed n (pre.count n) := by
      simp [dedupeOut]
    rw [List.length_cons, htail, hhead]
    cases hc : pre.count n with
    | zero =>
      have hseen : seenOf pre n = none := by simp [seenOf, hc]
      rw [dedupe_go, hseen]
      dsimp only
      have hupd : (fun x => if x = n then some 0 else seenOf pre x) = seenOf (pre ++ [n]) := by
        rw [← hc]
        exact seenOf_snoc pre n
      rw [hupd, ih (pre ++ [n])]
      simp [hc]
    | succ c =>
      have hseen : seenOf pre n = some c := by
        simp [seenOf, hc]
      rw [dedupe_go, hseen]
      dsimp only
      have hupd : (fun x => if x = n then some (c + 1) else seenOf pre x) =
          seenOf (pre ++ [n]) := by
        rw [show c + 1 = pre.count n by omega]
        exact seenOf_snoc pre n
      rw [hupd, ih (pre ++ [n])]
      simp [hc]


/-- takeWhile of an underscore-free prefix followed by an underscore recovers the prefix. -/
theorem takeWhile_until_underscore (xs ys : Str) (hxs : ∀ x ∈ xs, x ≠ '_') :
    (xs ++ '_' :: ys).takeWhile (fun c => c ≠ '_') = xs := by
  induction xs with
  | nil => simp [List.takeWhile_cons]
  | cons a as ih =>
    have ha : a ≠ '_' := hxs a (List.mem_cons_self a as)
    have htail := ih (fun x hx => hxs x (List.mem_cons_of_mem a hx))
    simp only [List.cons_append, List.takeWhile_cons, htail]
    simp [ha]

/-- Splitting at the final underscore: equal strings built from an
underscore-free tail after an underscore have equal parts. -/
theorem append_underscore_cancel (a b d1 d2 : Str) (h1 : ∀ x ∈ d1, x ≠ '_')
    (h2 : ∀ x ∈ d2, x ≠ '_') (h : a ++ '_' :: d1 = b ++ '_' :: d2) : a = b ∧ d1 = d2 := by
  have hr : d1.reverse ++ '_' :: a.reverse = d2.reverse ++ '_' :: b.reverse := by
    have hrev := congrArg List.reverse h
    simpa [List.reverse_append, List.append_assoc] using hrev
  have htw := congrArg (List.takeWhile (fun c => c ≠ '_')) hr
  rw [takeWhile_until_underscore _ _ (fun x hx => h1 x (List.mem_reverse.mp hx)),
      takeWhile_until_underscore _ _ (fun x hx => h2 x (List.mem_reverse.mp hx))] at htw
  have hd : d1 = d2 := by
    have hrev2 := congrArg List.reverse htw
    simpa using hrev2
  subst hd
  exact ⟨(List.append_left_inj ('_' :: d1)).mp h, rfl⟩

/-- Decides whether x is y followed by an underscore and a non-empty digit
string, the only shape the duplicate-suffixing can produce. -/
def suffixCollision (x y : Str) : Bool :=
  (y ++ ['_']).isPrefixOf x && !(x.drop (y.length + 1)).isEmpty &&
    (x.drop (y.length + 1)).all Char.isDigit

/-- An equation of the suffixed shape certifies a collision. -/
theorem suffixCollision_of_eq (x y d : Str) (hd : d ≠ [])
    (hdig : ∀ ch ∈ d, ch.isDigit = true) (h : x = y ++ '_' :: d) :
    suffixCollision x y = true := by
  have hx : x = (y ++ ['_']) ++ d := by rw [h]; simp
  have hlen : (y ++ ['_']).length = y.length + 1 := by simp
  have hdrop : x.drop (y.length + 1) = d := by
    rw [hx, ← hlen, List.drop_left]
  simp only [suffixCollision, hdrop, Bool.and_eq_true]
  refine ⟨⟨?_, ?_⟩, ?_⟩
  · rw [List.isPrefixOf_iff_prefix, hx]
    exact List.prefix_append _ _
  · cases d with
    | nil => exact absurd rfl hd
    | cons a t => rfl
  · rw [List.all_eq_true]
    intro ch hch
    exact hdig ch hch

/-- A later position of the same name sees strictly more earlier occurrences. -/
theorem count_take_succ_le (c : List Str) (i j : Nat) (hij : i < j) (hi : i < c.length) :
    (c.take i).count (c.getD i []) + 1 ≤ (c.take j).count (c.getD i []) := by
  have h1 : (c.take j).take (i + 1) = c.take (i + 1) := by
    rw [List.take_take]
    congr 1
    omega
  have h2 : c.take j = c.take (i + 1) ++ (c.take j).drop (i + 1) := by
    rw [← h1]
    exact (List.take_append_drop (i + 1) (c.take j)).symm
  have h3 : c.take (i + 1) = c.take i ++ [c.getD i []] := by
    rw [List.take_succ, List.getElem?_eq_getElem hi, List.getD_eq_getElem c [] hi]
    rfl
  rw [h2, List.count_append, h3, List.count_append, List.count_singleton_self]
  omega

/-- Distinct positions receive distinct emitted names when no cleaned input
name already carries a colliding digit suffix. -/
theorem dedupe_out_inj (c : List Str)
    (H : ∀ x ∈ c, ∀ y ∈ c, suffixCollision x y = false)
    (i j : Nat) (hi : i < c.length) (hj : j < c.length) (hij : i < j)
    (heq : dedupeOut [] c i = dedupeOut [] c j) : False := by
  have hmema : c.getD i [] ∈ c := by
    rw [List.getD_eq_getElem c [] hi]
    exact List.getElem_mem hi
  have hmemb : c.getD j [] ∈ c := by
    rw [List.getD_eq_getElem c [] hj]
    exact List.getElem_mem hj
  have hcnt := count_take_succ_le c i j hij hi
  simp only [dedupeOut, List.nil_append] at heq
  by_cases hca : (c.take i).count (c.getD i []) = 0 <;>
    by_cases hcb : (c.take j).count (c.getD j []) = 0
  · rw [if_pos hca, if_pos hcb] at heq
    rw [heq] at hcnt
    omega
  · rw [if_pos hca, if_neg hcb] at heq
    have hcol := suffixCollision_of_eq (c.getD i []) (c.getD j [])
      (natRepr ((c.take j).count (c.getD j []))) (natRepr_ne_nil _)
      (natRepr_all_digits _) heq
    rw [H _ hmema _ hmemb] at hcol
    exact Bool.false_ne_true hcol
  · rw [if_neg hca, if_pos hcb] at heq
    have hcol := suffixCollision_of_eq (c.getD j []) (c.getD i [])
      (natRepr ((c.take i).count (c.getD i []))) (natRepr_ne_nil _)
      (natRepr_all_digits _) heq.symm
    rw [H _ hmemb _ hmema] at hcol
    exact Bool.false_ne_true hcol
  · rw [if_neg hca, if_neg hcb] at heq
    obtain ⟨hab, hrepr⟩ := append_underscore_cancel _ _ _ _
      (natRepr_no_underscore _) (natRepr_no_underscore _) heq
    have hcc := natRepr_inj _ _ hrepr
    rw [hab] at hcnt hcc
    omega

/-- C7 fails as stated: an input already containing the literal suffixed name
Name_1 collides with the name generated for the duplicate of Name. -/
theorem C7_counterexample :
    clean_column_names [some (S "Name"), some (S "Name"), some (S "Name_1")] =
      [S "Name", S "Name_1", S "Name_1"] ∧
    ¬ (clean_column_names [some (S "Name"), some (S "Name"), some (S "Name_1")]).Nodup := by
  exact ⟨by decide, by decide⟩

/-- C7 amended: after cleaning, duplicate names are suffixed deterministically
in order of occurrence, and the resulting names are pairwise distinct for every
input list in which no cleaned raw name equals another cleaned name followed by
an underscore and a non-empty digit string. -/
theorem C7_amended_unique_columns (columns : List (Option Str))
    (H : ∀ x ∈ columns.map clean_column_name, ∀ y ∈ columns.map clean_column_name,
        suffixCollision x y = false) :
    (clean_column_names columns).Nodup := by
  rw [clean_column_names, seenOf_nil, dedupe_go_eq]
  refine List.Nodup.map_on ?_ (List.nodup_range _)
  intro x hx y hy hf
  rw [List.mem_range] at hx hy
  by_contra hne
  rcases Nat.lt_or_ge x y with hlt | hge
  · exact dedupe_out_inj _ H x y hx hy hlt hf
  · have hlt2 : y < x := by omega
    exact dedupe_out_inj _ H y x hy hx hlt2 hf.symm

/-- Witness for C7 amended at a collision-free input with a duplicate. -/
theorem C7_amended_unique_columns_witness :
    (∀ x ∈ ([some (S "Name"), some (S " Name "), some (S "Value")] : List (Option Str)).map
        clean_column_name,
      ∀ y ∈ ([some (S "Name"), some (S " Name "), some (S "Value")] : List (Option Str)).map
        clean_column_name,
      suffixCollision x y = false) ∧
    (clean_column_names [some (S "Name"), some (S " Name "), some (S "Value")]).Nodup :=
  ⟨by decide, C7_amended_unique_columns _ (by decide)⟩

/-- A loaded DataFrame: ordered column names plus rows of cells aligned by position. -/
structure DF where
  cols : List Str
  rows : List (List DCell)
deriving DecidableEq

/-- Well-formedness: every row carries exactly one cell per column. -/
def DF.WF (df : DF) : Prop := ∀ r ∈ df.rows, r.length = df.cols.length

instance (df : DF) : Decidable df.WF := List.decidableBAll _ _

/-- Values of the first column bearing a name, as callers read a column back. -/
def getCol (df : DF) (name : Str) : Option (List DCell) :=
  (df.cols.findIdx? (fun c => c = name)).map
    (fun i => df.rows.map (fun r => r.getD i DCell.null))

/-- Applies a cellwise transformation to every position of a named column
(pandas assignment of a transformed column back into the frame). -/
def mapColumn (df : DF) (name : Str) (f : DCell → DCell) : DF :=
  ⟨df.cols, df.rows.map (fun r => (df.cols.zip r).map
    (fun p => if p.1 = name then f p.2 else p.2))⟩

/-- Renames columns through a static mapping; unmapped names pass through. -/
def renameCols (mapping : List (Str × Str)) (df : DF) : DF :=
  ⟨df.cols.map (fun c => match mapping.lookup c with
    | some t => t
    | none => c), df.rows⟩

/-- Pandas scalar column assignment: overwrite every position of an existing
column of that name, or append a new column filled with the value. -/
def setColumn (df : DF) (name : Str) (v : DCell) : DF :=
  if name ∈ df.cols then
    ⟨df.cols, df.rows.map (fun r => (df.cols.zip r).map
      (fun p => if p.1 = name then v else p.2))⟩
  else
    ⟨df.cols ++ [name], df.rows.map (fun r => r ++ [v])⟩

/-- Removes every occurrence of a character (Python str.replace with an empty
replacement, the literal non-regex form the sources use). -/
def removeAllChar (c : Char) (s : Str) : Str := s.filter (fun x => ¬ x = c)

/-- Replaces every occurrence of a character (literal str.replace). -/
def replaceAllChar (c r : Char) (s : Str) : Str := s.map (fun x => if x = c then r else x)

/-- The currency-column preprocessing of fedex.py and ups.py: astype(str),
strip dollar signs and commas literally, then to_numeric with coercion. -/
def currencyColumnCell (c : DCell) : DCell :=
  match parseDecimal (removeAllChar ',' (removeAllChar '$' (astypeStr c))) with
  | some q => DCell.num q
  | none => DCell.null

/-- pd.to_numeric with coercion on a single cell. -/
def toNumericCell (c : DCell) : DCell :=
  match c with
  | DCell.num q => DCell.num q
  | DCell.null => DCell.null
  | DCell.str s =>
    match parseDecimal s with
    | some q => DCell.num q
    | none => DCell.null

/-- astype(str) followed by str.strip on a single cell. -/
def strStripCell (c : DCell) : DCell := DCell.str (pyStrip (astypeStr c))

/-- Applies a cellwise transformation to a column when the column is present
(the guarded pattern of the vendor preprocessors). -/
def mapColumnIfPresent (df : DF) (name : Str) (f : DCell → DCell) : DF :=
  if name ∈ df.cols then mapColumn df name f else df

/-- Embeds FedExProcessor.preprocess_dataframe: strip currency formatting from
Net Charge, coerce the weight columns to numbers, strip the reference columns. -/
def fedex_preprocess (df : DF) : DF :=
  mapColumnIfPresent
    (mapColumnIfPresent
      (mapColumnIfPresent
        (mapColumnIfPresent
          (mapColumnIfPresent
            (mapColumnIfPresent df (S "Net Charge") currencyColumnCell)
            (S "Actual Weight") toNumericCell)
          (S "Billed Weight") toNumericCell)
        (S "Reference 1") strStripCell)
      (S "Reference 2") strStripCell)
    (S "Reference 4") strStripCell

/-- The FedEx raw-to-canonical column mapping of fedex.py. -/
def fedex_column_mapping : List (Str × Str) :=
  [(S "Tracking Number", S "tracking_number"),
   (S "Invoice Date", S "invoice_date"),
   (S "Ship Date", S "ship_date"),
   (S "Service Type", S "service_type"),
   (S "Net Charge", S "shipping_cost"),
   (S "Actual Weight", S "actual_weight"),
   (S "Billed Weight", S "billed_weight"),
   (S "Recipient Company", S "recipient_name"),
   (S "Recipient State", S "recipient_state"),
   (S "Recipient Zipcode", S "recipient_zip"),
   (S "Recipient Country", S "recipient_country"),
   (S "Reference 1", S "reference_1"),
   (S "Reference 2", S "reference_2"),
   (S "Reference 4", S "reference_4"),
   (S "Zone", S "zone"),
   (S "Dim Length", S "package_length"),
   (S "Dim Width", S "package_width"),
   (S "Dim Height", S "package_height")]

/-- The FedEx required-field list of validate_required_fields. -/
def fedex_required_fields : List Str :=
  [S "Tracking Number", S "Ship Date", S "Net Charge", S "Recipient State", S "Service Type"]

/-- Embeds FedExProcessor.validate_required_fields: all required columns present. -/
def fedex_validate (df : DF) : Bool :=
  (fedex_required_fields.filter (fun f => ¬ f ∈ df.cols)).isEmpty

/-- The UPS raw-to-canonical column mapping of ups.py. -/
def ups_column_mapping : List (Str × Str) :=
  [(S "Tracking Number", S "tracking_number"),
   (S "Carrier Invoice Date", S "invoice_date"),
   (S "Pickup Date", S "ship_date"),
   (S "Service", S "service_type"),
   (S "Shipping Cost", S "shipping_cost"),
   (S "Billed Weight", S "billed_weight"),
   (S "Recipient Name", S "recipient_name"),
   (S "Recipient State", S "recipient_state"),
   (S "Recipient Postal Code", S "recipient_zip"),
   (S "Recipient Country", S "recipient_country"),
   (S "Origin State", S "origin_state"),
   (S "Reference 1", S "reference_1"),
   (S "Reference 2", S "reference_2")]

/-- Embeds UPSProcessor.preprocess_dataframe. -/
def ups_preprocess (df : DF) : DF :=
  mapColumnIfPresent
    (mapColumnIfPresent
      (mapColumnIfPresent
        (mapColumnIfPresent
          (mapColumnIfPresent df (S "Shipping Cost") currencyColumnCell)
          (S "Billed Weight") toNumericCell)
        (S "Reference 1") strStripCell)
      (S "Reference 2") strStripCell)
    (S "Recipient Postal Code") strStripCell

/-- The UPS required-field list of validate_required_fields. -/
def ups_required_fields : List Str :=
  [S "Tracking Number", S "Pickup Date", S "Shipping Cost", S "Recipient State", S "Service"]

/-- Embeds UPSProcessor.validate_required_fields. -/
def ups_validate (df : DF) : Bool :=
  (ups_required_fields.filter (fun f => ¬ f ∈ df.cols)).isEmpty

/-- The USPS placeholder mapping of usps.py. -/
def usps_column_mapping : List (Str × Str) :=
  [(S "Tracking Number", S "tracking_number"),
   (S "Ship Date", S "ship_date"),
   (S "Cost", S "shipping_cost"),
   (S "Recipient State", S "recipient_state"),
   (S "Service", S "service_type")]

/-- A vendor variant: identity, mapping, preprocessing and validation,
mirroring the VendorProcessor interface of base.py. -/
structure VendorProcessor where
  vendor : Vendor
  column_mapping : List (Str × Str)
  preprocess : DF → DF
  validate : DF → Bool

/-- Embeds VendorProcessor.process_dataframe of base.py: validate, else raise
the missing-fields error naming the vendor; preprocess; rename; stamp every
record with the vendor value. -/
def process_dataframe (P : VendorProcessor) (df : DF) : Except Str DF :=
  if ¬ P.validate df then
    Except.error (S "Missing required fields for " ++ P.vendor.value)
  else
    Except.ok (setColumn (renameCols P.column_mapping (P.preprocess df))
      (S "vendor") (DCell.str P.vendor.value))

/-- The FedEx variant of fedex.py. -/
def FedExProcessor : VendorProcessor :=
  ⟨Vendor.FEDEX, fedex_column_mapping, fedex_preprocess, fedex_validate⟩

/-- The UPS variant of ups.py. -/
def UPSProcessor : VendorProcessor :=
  ⟨Vendor.UPS, ups_column_mapping, ups_preprocess, ups_validate⟩

/-- The USPS placeholder variant of usps.py: identity preprocessing and an
always-true validator. -/
def USPSProcessor : VendorProcessor :=
  ⟨Vendor.USPS, usps_column_mapping, fun df => df, fun _ => true⟩

/-- Embeds map_vendor_columns_to_shared_schema of mapper.py: dispatch to the
vendor variant, rejecting the unknown vendor. -/
def map_vendor_columns_to_shared_schema (df : DF) (vendor : Vendor) : Except Str DF :=
  match vendor with
  | Vendor.FEDEX => process_dataframe FedExProcessor df
  | Vendor.UPS => process_dataframe UPSProcessor df
  | Vendor.USPS => process_dataframe USPSProcessor df
  | Vendor.UNKNOWN => Except.error (S "Unsupported vendor: unknown")

/-- The raw detection frame: read_excel with no header reads only the first
max_header_rows plus ten rows. -/
def rawOf (cfg : FileReaderCfg) (grid : Grid) : Grid :=
  grid.take (cfg.max_header_rows + 10)

/-- Column names obtained by promoting a header row: a blank header cell is
named by pandas as Unnamed followed by its position. -/
def headerNamesOfRow (row : Row) : List Str :=
  row.enum.map (fun p =>
    match p.2 with
    | some s => s
    | none => S "Unnamed: " ++ natRepr p.1)

/-- One data row shaped to the column width: text cells become strings,
missing or absent cells become null. -/
def rowToCells (width : Nat) (row : Row) : List DCell :=
  (List.range width).map (fun i =>
    match row.getD i none with
    | some s => DCell.str s
    | none => DCell.null)

/-- The cleaned column names promoted from the detected header row. -/
def colsOf (grid : Grid) (header_row : Nat) : List Str :=
  clean_column_names ((headerNamesOfRow (grid.getD header_row [])).map some)

/-- The data rows after the header, shaped to the column width, with rows that
are entirely missing dropped (dropna with how set to all). -/
def dataRowsOf (grid : Grid) (header_row : Nat) (width : Nat) : List (List DCell) :=
  ((grid.drop (header_row + 1)).map (rowToCells width)).filter
    (fun r => ¬ r.all (fun c => c = DCell.null))

/-- Embeds FileReader.read_excel of file_reader.py for a vendor already
detected from the filename: read a bounded raw grid, locate the header row,
re-read with that header, clean column names, drop empty rows, and fail when
no data remains. -/
def read_excel (cfg : FileReaderCfg) (vendor : Vendor) (grid : Grid) : Except Str DF :=
  if (rawOf cfg grid).isEmpty then Except.error (S "File is empty")
  else
    match detect_header_row_with_vendor cfg (rawOf cfg grid) vendor with
    | none => Except.error (S "No headers detected in first 10 rows")
    | some header_row =>
      if (dataRowsOf grid header_row (colsOf grid header_row).length).isEmpty then
        Except.error (S "No data found after header row")
      else
        Except.ok ⟨colsOf grid header_row,
          dataRowsOf grid header_row (colsOf grid header_row).length⟩

/-- The end-to-end entry point for a spreadsheet workbook: identify the vendor
from the filename, read with header detection, and normalize through the
vendor variant.  This composes detect_vendor, FileReader. read_excel and
map_vendor_columns_to_shared_schema, the source functions realizing the
normalized_table_for interface for workbook files. -/
def normalized_table_for (cfg : FileReaderCfg) (filename : Str) (grid : Grid) :
    Except Str DF :=
  (read_excel cfg (detect_vendor (some filename)) grid).bind
    (fun df => map_vendor_columns_to_shared_schema df (detect_vendor (some filename)))

/-- The table the pipeline produces for the end-to-end FedEx scenario. -/
def fedexScenarioExpected : DF :=
  ⟨[S "tracking_number", S "invoice_date", S "ship_date", S "service_type",
    S "shipping_cost", S "recipient_state", S "vendor"],
   [[DCell.str (S "785123456789"), DCell.str (S "2025-08-02"),
     DCell.str (S "2025-07-30"), DCell.str (S "Ground"),
     DCell.num (decimalRat 1982 2), DCell.str (S "CA"), DCell.str (S "fedex")],
    [DCell.str (S "785123456790"), DCell.str (S "2025-08-02"),
     DCell.str (S "2025-07-30"), DCell.str (S "Ground"),
     DCell.null, DCell.str (S "TX"), DCell.str (S "fedex")]]⟩

/-- C1 fails as stated: the scenario yields two records stamped fedex, but the
parenthesized Net Charge coerces to null rather than the negative number,
because the FedEx preprocessor strips only dollar signs and commas. -/
theorem C1_counterexample :
    normalized_table_for ⟨10⟩ (S "FDX_20250802_LOL509.xlsx") fedexScenarioGrid =
      Except.ok fedexScenarioExpected ∧
    getCol fedexScenarioExpected (S "shipping_cost") =
      some [DCell.num (decimalRat 1982 2), DCell.null] ∧
    ∀ q : ℚ, DCell.null ≠ DCell.num q :=
  ⟨rfl, rfl, fun _ h => DCell.noConfusion h⟩

/-- C1 amended: the end-to-end entry point returns a table of exactly two
records stamped with vendor fedex whose shipping costs are the number 19.82
and null (the unparseable parenthesized amount), in order. -/
theorem C1_amended_end_to_end :
    normalized_table_for ⟨10⟩ (S "FDX_20250802_LOL509.xlsx") fedexScenarioGrid =
      Except.ok fedexScenarioExpected ∧
    fedexScenarioExpected.rows.length = 2 ∧
    getCol fedexScenarioExpected (S "vendor") =
      some [DCell.str (S "fedex"), DCell.str (S "fedex")] ∧
    getCol fedexScenarioExpected (S "shipping_cost") =
      some [DCell.num (decimalRat 1982 2), DCell.null] ∧
    decimalRat 1982 2 = (19.82 : ℚ) := by
  refine ⟨rfl, rfl, rfl, rfl, ?_⟩
  norm_num [decimalRat]

/-- A FedEx-shaped table lacking the Service Type column. -/
def fedexMissingServiceDF : DF :=
  ⟨[S "Tracking Number", S "Ship Date", S "Net Charge", S "Recipient State"],
   [[DCell.str (S "785123456789"), DCell.str (S "2025-07-30"),
     DCell.str (S "$19.82"), DCell.str (S "CA")]]⟩

/-- C4 fails as stated: the raised error carries the vendor but does not name
the missing field, because process_dataframe raises only the fixed
missing-required-fields message. -/
theorem C4_counterexample :
    process_dataframe FedExProcessor fedexMissingServiceDF =
      Except.error (S "Missing required fields for fedex") ∧
    containsSub (S "Missing required fields for fedex") (S "Service Type") = false :=
  ⟨rfl, by decide⟩

/-- C4 amended: every table lacking a Service Type column is rejected by the
FedEx variant with the missing-required-fields error naming the vendor, and no
normalized table is returned; the individual missing field names are only
printed, not carried by the error. -/
theorem C4_amended_missing_field (df : DF) (h : ¬ (S "Service Type") ∈ df.cols) :
    process_dataframe FedExProcessor df =
      Except.error (S "Missing required fields for fedex") := by
  have hval : fedex_validate df = false := by
    have hmem : (S "Service Type") ∈
        fedex_required_fields.filter (fun f => ¬ f ∈ df.cols) := by
      rw [List.mem_filter]
      refine ⟨by decide, ?_⟩
      simpa using h
    cases hfe : fedex_required_fields.filter (fun f => ¬ f ∈ df.cols) with
    | nil =>
      rw [hfe] at hmem
      exact absurd hmem (List.not_mem_nil _)
    | cons a t =>
      rw [fedex_validate, hfe]
      rfl
  rw [process_dataframe]
  rw [if_pos]
  · rfl
  · show ¬ FedExProcessor.validate df
    rw [show FedExProcessor.validate = fedex_validate from rfl, hval]
    exact Bool.false_ne_true

/-- Witness for C4 amended at the concrete table lacking Service Type. -/
theorem C4_amended_missing_field_witness :
    (¬ (S "Service Type") ∈ fedexMissingServiceDF.cols) ∧
    process_dataframe FedExProcessor fedexMissingServiceDF =
      Except.error (S "Missing required fields for fedex") :=
  ⟨by decide, C4_amended_missing_field fedexMissingServiceDF (by decide)⟩

/-- After a scalar column assignment on a well-formed frame, every position
named by that column holds the assigned value in every row. -/
theorem setColumn_stamps (df : DF) (hwf : df.WF) (name : Str) (v : DCell) :
    ∀ i, i < (setColumn df name v).cols.length →
      (setColumn df name v).cols.getD i [] = name →
      ∀ r ∈ (setColumn df name v).rows, r.getD i DCell.null = v := by
  intro i hi hname r hr
  by_cases hmem : name ∈ df.cols
  · simp only [setColumn, hmem, if_true] at hi hname hr
    obtain ⟨r0, hr0, rfl⟩ := List.mem_map.mp hr
    have hlen : r0.length = df.cols.length := hwf r0 hr0
    have hziplen : (df.cols.zip r0).length = df.cols.length := by
      rw [List.length_zip, hlen, Nat.min_self]
    have hilt : i < ((df.cols.zip r0).map
        (fun p => if p.1 = name then v else p.2)).length := by
      rw [List.length_map, hziplen]
      exact hi
    rw [List.getD_eq_getElem _ _ hilt, List.getElem_map, List.getElem_zip]
    rw [List.getD_eq_getElem _ _ hi] at hname
    simp [hname]
  · simp only [setColumn, hmem, if_false] at hi hname hr
    obtain ⟨r0, hr0, rfl⟩ := List.mem_map.mp hr
    have hlen : r0.length = df.cols.length := hwf r0 hr0
    rw [List.length_append, List.length_singleton] at hi
    by_cases hieq : i < df.cols.length
    · exfalso
      rw [List.getD_append _ _ _ _ hieq] at hname
      apply hmem
      rw [← hname, List.getD_eq_getElem _ _ hieq]
      exact List.getElem_mem hieq
    · have hieq2 : i = df.cols.length := by omega
      subst hieq2
      rw [← hlen, List.getD_eq_getElem?_getD, List.getElem?_concat_length]
      rfl

/-- Column renaming preserves well-formedness. -/
theorem renameCols_WF (mapping : List (Str × Str)) (df : DF) (hwf : df.WF) :
    (renameCols mapping df).WF := by
  intro r hr
  simp only [renameCols, List.length_map]
  exact hwf r hr

/-- Scalar column assignment preserves well-formedness. -/
theorem setColumn_WF (df : DF) (hwf : df.WF) (name : Str) (v : DCell) :
    (setColumn df name v).WF := by
  intro r hr
  by_cases hmem : name ∈ df.cols
  · simp only [setColumn, hmem, if_true] at hr ⊢
    obtain ⟨r0, hr0, rfl⟩ := List.mem_map.mp hr
    have hlen : r0.length = df.cols.length := hwf r0 hr0
    rw [List.length_map, List.length_zip, hlen, Nat.min_self]
  · simp only [setColumn, hmem, if_false] at hr ⊢
    obtain ⟨r0, hr0, rfl⟩ := List.mem_map.mp hr
    have hlen : r0.length = df.cols.length := hwf r0 hr0
    rw [List.length_append, List.length_append, hlen]
    rfl

/-- Every position named vendor holds the usps tag in every record. -/
def vendorStamped (t : DF) : Prop :=
  ∀ i, i < t.cols.length → t.cols.getD i [] = S "vendor" →
    ∀ r ∈ t.rows, r.getD i DCell.null = DCell.str (S "usps")

instance (t : DF) : Decidable (vendorStamped t) := by
  unfold vendorStamped
  infer_instance

/-- The USPS variant always validates, so processing always succeeds with the
renamed, vendor-stamped table. -/
theorem process_usps_ok (df : DF) :
    process_dataframe USPSProcessor df =
      Except.ok (setColumn (renameCols usps_column_mapping df) (S "vendor")
        (DCell.str (S "usps"))) := rfl

/-- C6: processing an already-normalized table twice through the tolerant USPS
variant never fails, and both passes leave every vendor-named position of every
record holding the single usps identity, so no conflicting vendor tags arise. -/
theorem C6_idempotent_vendor_stamp (df : DF) (hwf : df.WF) :
    ∃ t1 t2, process_dataframe USPSProcessor df = Except.ok t1 ∧
      process_dataframe USPSProcessor t1 = Except.ok t2 ∧
      vendorStamped t1 ∧ vendorStamped t2 := by
  refine ⟨_, _, process_usps_ok df, process_usps_ok _, ?_, ?_⟩
  · intro i hi hname r hr
    exact setColumn_stamps _ (renameCols_WF _ _ hwf) _ _ i hi hname r hr
  · intro i hi hname r hr
    have hwf1 : (setColumn (renameCols usps_column_mapping df) (S "vendor")
        (DCell.str (S "usps"))).WF :=
      setColumn_WF _ (renameCols_WF _ _ hwf) _ _
    exact setColumn_stamps _ (renameCols_WF _ _ hwf1) _ _ i hi hname r hr

/-- Witness for C6 at a one-column, one-row table. -/
theorem C6_idempotent_vendor_stamp_witness :
    (⟨[S "Cost"], [[DCell.str (S "1")]]⟩ : DF).WF ∧
    (∃ t1 t2, process_dataframe USPSProcessor ⟨[S "Cost"], [[DCell.str (S "1")]]⟩ =
        Except.ok t1 ∧
      process_dataframe USPSProcessor t1 = Except.ok t2 ∧
      vendorStamped t1 ∧ vendorStamped t2) :=
  ⟨by decide, C6_idempotent_vendor_stamp _ (by decide)⟩

/-- Header detection never succeeds on an empty raw grid. -/
theorem detect_header_nil (cfg : FileReaderCfg) (vendor : Vendor) :
    detect_header_row_with_vendor cfg [] vendor = none := by
  cases vendor <;> rfl

/-- Shaping an entirely-missing raw row yields only null cells. -/
theorem rowToCells_all_null (w : Nat) (r : Row) (h : ∀ c ∈ r, c = none) :
    ∀ x ∈ rowToCells w r, x = DCell.null := by
  intro x hx
  rw [rowToCells] at hx
  obtain ⟨i, hi, hxe⟩ := List.mem_map.mp hx
  have hgd : r.getD i none = none := by
    by_cases hlt : i < r.length
    · rw [List.getD_eq_getElem _ _ hlt]
      exact h _ (List.getElem_mem hlt)
    · rw [List.getD_eq_getElem?_getD, List.getElem?_eq_none (by omega)]
      rfl
  rw [hgd] at hxe
  exact hxe.symm

/-- C10: whenever a header row is detected but every row after it is entirely
empty (or absent), the reader fails with the no-data error rather than
returning a table; and every table the reader does return has at least one
data row. -/
theorem C10_reader_requires_data (cfg : FileReaderCfg) (vendor : Vendor) (grid : Grid) :
    (∀ h, detect_header_row_with_vendor cfg (rawOf cfg grid) vendor = some h →
      (∀ r ∈ grid.drop (h + 1), ∀ c ∈ r, c = none) →
      read_excel cfg vendor grid = Except.error (S "No data found after header row")) ∧
    (∀ df, read_excel cfg vendor grid = Except.ok df → df.rows ≠ []) := by
  constructor
  · intro h hdet hempty
    have hraw : (rawOf cfg grid).isEmpty = false := by
      rw [List.isEmpty_eq_false]
      intro hnil
      rw [hnil, detect_header_nil] at hdet
      exact Option.noConfusion hdet
    have hdata : dataRowsOf grid h (colsOf grid h).length = [] := by
      rw [dataRowsOf, List.filter_eq_nil_iff]
      intro r hr
      obtain ⟨r0, hr0, rfl⟩ := List.mem_map.mp hr
      have hall := rowToCells_all_null (colsOf grid h).length r0 (hempty r0 hr0)
      simp only [decide_eq_true_eq, Decidable.not_not]
      rw [List.all_eq_true]
      intro c hc
      simp [hall c hc]
    rw [read_excel, hraw]
    simp only [Bool.false_eq_true, if_false, hdet, hdata]
    rfl
  · intro df hdf
    rw [read_excel] at hdf
    by_cases hraw : (rawOf cfg grid).isEmpty
    · rw [if_pos hraw] at hdf
      exact absurd hdf (by simp)
    · rw [if_neg hraw] at hdf
      cases hdet : detect_header_row_with_vendor cfg (rawOf cfg grid) vendor with
      | none =>
        rw [hdet] at hdf
        exact absurd hdf (by simp)
      | some h =>
        rw [hdet] at hdf
        dsimp only at hdf
        by_cases hdata : (dataRowsOf grid h (colsOf grid h).length).isEmpty
        · rw [if_pos hdata] at hdf
          exact absurd hdf (by simp)
        · rw [if_neg hdata] at hdf
          have hinj := Except.ok.inj hdf
          intro hnil
          rw [← hinj] at hnil
          simp only at hnil
          exact absurd hnil (by simpa using hdata)

/-- Witness for C10: a grid holding only a header row fails with the no-data error. -/
theorem C10_reader_requires_data_witness :
    (detect_header_row_with_vendor ⟨10⟩ (rawOf ⟨10⟩ [fedexHeaderRow]) Vendor.UNKNOWN =
      some 0) ∧
    (∀ r ∈ ([fedexHeaderRow] : Grid).drop (0 + 1), ∀ c ∈ r, c = none) ∧
    read_excel ⟨10⟩ Vendor.UNKNOWN [fedexHeaderRow] =
      Except.error (S "No data found after header row") :=
  ⟨by decide, by decide,
    (C10_reader_requires_data ⟨10⟩ Vendor.UNKNOWN [fedexHeaderRow]).1 0 (by decide) (by decide)⟩

/-- The per-cell string semantics of convert_dollar_to_float in cleaner.py:
delete dollar signs and commas, replace every open parenthesis by a minus and
delete every close parenthesis, trim, send blank and the nan and null
spellings to missing, then coerce to a number with unparseable values missing. -/
def convert_dollar_cell (s : Str) : Option ℚ :=
  let t := pyStrip (removeAllChar ')' (replaceAllChar '(' '-'
    (removeAllChar ',' (removeAllChar '$' s))))
  if t = [] ∨ t = S "nan" ∨ t = S "NaN" ∨ t = S "null" then none
  else parseDecimal t

/-- convert_dollar_to_float on one cell: astype(str) then the string pipeline,
with missing results left as NaN. -/
def convert_dollar_to_float_cell (c : DCell) : DCell :=
  match convert_dollar_cell (astypeStr c) with
  | some q => DCell.num q
  | none => DCell.null

/-- Embeds convert_dollar_to_float of cleaner.py over its column list,
skipping absent columns. -/
def convert_dollar_to_float (df : DF) (columns : List Str) : DF :=
  columns.foldl (fun acc col => mapColumnIfPresent acc col convert_dollar_to_float_cell) df

/-- The claim's reading of the coercer, written from its words: strip dollar
signs and commas, replace a leading open parenthesis by a minus and drop a
trailing close parenthesis, send blank and nan and null (after trimming) to
missing, and map any non-parseable remainder to missing. -/
def currency_to_number_claim (s : Str) : Option ℚ :=
  let a := removeAllChar ',' (removeAllChar '$' s)
  let b := match a with
    | '(' :: r => '-' :: r
    | r => r
  let c := if b.getLast? = some ')' then b.dropLast else b
  let t := pyStrip c
  if t = [] ∨ t = S "nan" ∨ t = S "null" then none
  else parseDecimal t

/-- The amended description of the coercer: every close parenthesis is deleted
and every open parenthesis becomes a minus, wherever they occur; blank and the
nan and null spellings map to missing; unparseable remainders map to missing;
no input raises. -/
def currency_to_number_amended (s : Str) : Option ℚ :=
  let t := pyStrip (s.filterMap (fun ch =>
    if ch = '$' ∨ ch = ',' ∨ ch = ')' then none
    else if ch = '(' then some '-' else some ch))
  if t = [] ∨ t = S "nan" ∨ t = S "NaN" ∨ t = S "null" then none
  else parseDecimal t

/-- The four sequential character replacements equal one character-wise pass. -/
theorem cleaner_pipeline_eq (s : Str) :
    removeAllChar ')' (replaceAllChar '(' '-' (removeAllChar ',' (removeAllChar '$' s))) =
      s.filterMap (fun ch =>
        if ch = '$' ∨ ch = ',' ∨ ch = ')' then none
        else if ch = '(' then some '-' else some ch) := by
  induction s with
  | nil => rfl
  | cons c rest ih =>
    by_cases h1 : c = '$'
    · subst h1
      simpa [removeAllChar, replaceAllChar] using ih
    · by_cases h2 : c = ','
      · subst h2
        simpa [removeAllChar, replaceAllChar, h1] using ih
      · by_cases h3 : c = '('
        · subst h3
          simpa [removeAllChar, replaceAllChar, h1, h2] using ih
        · by_cases h4 : c = ')'
          · subst h4
            simpa [removeAllChar, replaceAllChar, h1, h2, h3] using ih
          · simpa [removeAllChar, replaceAllChar, h1, h2, h3, h4] using ih

/-- C5 fails as stated: the coercer deletes an interior close parenthesis, so
the remainder 1)2 — non-parseable under the claim's description and therefore
owed a null — coerces to the number 12. -/
theorem C5_counterexample :
    convert_dollar_cell (S "1)2") = some (decimalRat 12 0) ∧
    currency_to_number_claim (S "1)2") = none :=
  ⟨rfl, rfl⟩

/-- C5 amended: the coercer deletes every close parenthesis and turns every
open parenthesis into a minus wherever they occur (so a wrapped value becomes
negative), maps blank and the nan and null spellings after trimming to null,
maps any then-non-parseable remainder to null, and never raises; the three
cited examples hold. -/
theorem C5_amended_currency_coercion :
    (∀ s, convert_dollar_cell s = currency_to_number_amended s) ∧
    convert_dollar_cell (S "$(1,234.50)") = some (decimalRat (-123450) 2) ∧
    convert_dollar_cell (S "$19.82") = some (decimalRat 1982 2) ∧
    convert_dollar_cell (S "") = none ∧
    decimalRat (-123450) 2 = (-1234.50 : ℚ) ∧
    decimalRat 1982 2 = (19.82 : ℚ) := by
  refine ⟨?_, rfl, rfl, rfl, by norm_num [decimalRat], by norm_num [decimalRat]⟩
  intro s
  simp only [convert_dollar_cell, currency_to_number_amended, cleaner_pipeline_eq]
